import Mathlib

/-!
Verification development for the sh-stat comparison tool (src/main.go).

The program compares two labeled time series with Welch's t-test and
Student's-t confidence intervals. Its numeric state lives in IEEE-754
doubles; every arithmetic step the program itself performs (means,
variances, the t statistic, Welch-Satterthwaite degrees of freedom,
percentage difference, the significance comparison) stays in the exact
fragment of double arithmetic when the inputs are exact, so it is modelled
here by the type `RF`: an exact rational, a signed infinity, or NaN, with
the IEEE special-value rules. Rounding is not modelled. The transcendental
routines the program calls (Student's t survival/quantile from gonum's
distuv, and math.Sqrt on positive arguments) are not part of this
repository; they are passed in as a `Libm` record and constrained, where a
claim needs it, by the properties the spec assigns to them.
-/

namespace ShStat

/-- Idealized IEEE-754 double: NaN, a signed infinity (`inf true` is +∞),
or an exact finite value modelled as a rational. Zeroes are unsigned and
treated as +0, which matches every zero the analyzed program produces. -/
inductive RF where
  | nan : RF
  | inf : Bool → RF
  | fin : ℚ → RF
deriving DecidableEq

/-- IEEE negation. -/
def RF.neg : RF → RF
  | .nan => .nan
  | .inf s => .inf (!s)
  | .fin a => .fin (-a)

/-- IEEE addition (exact): NaN propagates, infinities of opposite sign
give NaN. -/
def RF.add : RF → RF → RF
  | .nan, _ => .nan
  | .inf _, .nan => .nan
  | .fin _, .nan => .nan
  | .inf s, .inf t => if s = t then .inf s else .nan
  | .inf s, .fin _ => .inf s
  | .fin _, .inf t => .inf t
  | .fin a, .fin b => .fin (a + b)

/-- IEEE subtraction. -/
def RF.sub (x y : RF) : RF := x.add y.neg

/-- IEEE multiplication (exact): NaN propagates, 0 times an infinity is
NaN, otherwise infinities combine signs. -/
def RF.mul : RF → RF → RF
  | .nan, _ => .nan
  | .inf _, .nan => .nan
  | .fin _, .nan => .nan
  | .inf s, .inf t => .inf (s == t)
  | .inf s, .fin b => if b = 0 then .nan else .inf (s == decide (0 < b))
  | .fin a, .inf t => if a = 0 then .nan else .inf (t == decide (0 < a))
  | .fin a, .fin b => .fin (a * b)

/-- IEEE division (exact): NaN propagates, 0/0 and inf/inf give NaN, a
nonzero finite value over zero gives a signed infinity (every zero divisor
the program produces is +0), finite over infinity gives 0. -/
def RF.div : RF → RF → RF
  | .nan, _ => .nan
  | .inf _, .nan => .nan
  | .fin _, .nan => .nan
  | .inf _, .inf _ => .nan
  | .inf s, .fin b => .inf (s == decide (0 ≤ b))
  | .fin _, .inf _ => .fin 0
  | .fin a, .fin b =>
      if b = 0 then (if a = 0 then .nan else .inf (decide (0 < a)))
      else .fin (a / b)

/-- IEEE absolute value. -/
def RF.abs : RF → RF
  | .nan => .nan
  | .inf _ => .inf true
  | .fin a => .fin |a|

/-- Model of math.Sqrt: NaN on NaN and on negative arguments, +∞ on +∞,
exactly 0 on 0 (IEEE requires sqrt(+0) = +0); on positive arguments it
defers to the supplied library routine. -/
def RF.sqrt (sqrtQ : ℚ → ℚ) : RF → RF
  | .nan => .nan
  | .inf s => if s then .inf true else .nan
  | .fin a => if a < 0 then .nan else if a = 0 then .fin 0 else .fin (sqrtQ a)

/-- Model of math.Pow(x, 2) as used at src/main.go:74-75: squaring. -/
def RF.sq (x : RF) : RF := x.mul x

/-- IEEE strict less-than as the Go `<` on float64: any comparison with
NaN is false. -/
def RF.ltb : RF → RF → Bool
  | .nan, _ => false
  | .inf _, .nan => false
  | .fin _, .nan => false
  | .inf s, .inf t => !s && t
  | .inf s, .fin _ => !s
  | .fin _, .inf t => t
  | .fin a, .fin b => decide (a < b)

/-- IEEE less-or-equal: any comparison with NaN is false. -/
def RF.leb : RF → RF → Bool
  | .nan, _ => false
  | .inf _, .nan => false
  | .fin _, .nan => false
  | .inf s, .inf t => !s || t
  | .inf s, .fin _ => !s
  | .fin _, .inf t => t
  | .fin a, .fin b => decide (a ≤ b)

/-- Model of the external gonum routine stat.Mean (not in this
repository's source): the arithmetic mean sum/n, which is 0/0 = NaN on an
empty sample. -/
def gmean (l : List ℚ) : RF :=
  if l.length = 0 then .nan else .fin (l.sum / l.length)

/-- Sum of squared deviations from the mean. -/
def sqDevSum (l : List ℚ) : ℚ :=
  (l.map (fun x => (x - l.sum / l.length) ^ 2)).sum

/-- Model of the external gonum routine stat.Variance (not in this
repository's source). gonum documents it as the unbiased sample variance,
denominator n-1. Its one-pass accumulation yields 0/(0-1) = -0 on an empty
sample (modelled as 0, zeroes being unsigned here) and 0/0 = NaN on a
singleton. -/
def gvariance (l : List ℚ) : RF :=
  if l.length = 0 then .fin 0
  else if l.length = 1 then .nan
  else .fin (sqDevSum l / (l.length - 1))

/-- Model of the external gonum routine stat.StdDev: the square root of
stat.Variance. -/
def gstddev (sqrtQ : ℚ → ℚ) (l : List ℚ) : RF := (gvariance l).sqrt sqrtQ

/-- Modelled from the spec: the external numeric routines called by the
source whose code is not in this repository. `survival` is gonum
distuv.StudentsT{Nu}.Survival — spec section 4.2 reads it as the upper
tail of the Student's t distribution with the given shape, an argument
that in the program can be NaN or infinite, hence the RF-valued signature.
`quantile` is distuv.StudentsT{Nu}.Quantile, the t-distribution inverse
CDF; every call the program makes passes it finite arguments. `sqrtQ` is
math.Sqrt on positive rational arguments (its values on 0, negatives, NaN
and infinities are fixed by IEEE-754 and handled in RF.sqrt). -/
structure Libm where
  survival : RF → RF → RF
  quantile : ℚ → ℚ → ℚ
  sqrtQ : ℚ → ℚ

/-- Embedding of welchTTest (src/main.go:59-81): guard for samples of
fewer than two observations, then the t statistic, Welch-Satterthwaite
degrees of freedom, and the two-tailed p-value from the survival
function. -/
def welchTTest (lib : Libm) (x y : List ℚ) : RF × RF :=
  let nx : ℚ := x.length
  let ny : ℚ := y.length
  if nx < 2 ∨ ny < 2 then
    (.fin 0, .fin 1)
  else
    let meanX := gmean x
    let meanY := gmean y
    let varX := gvariance x
    let varY := gvariance y
    let se := (varX.div (.fin nx)).add (varY.div (.fin ny))
    let t := (meanX.sub meanY).div (se.sqrt lib.sqrtQ)
    let df := se.sq.div
      (((varX.div (.fin nx)).sq.div (.fin (nx - 1))).add
        ((varY.div (.fin ny)).sq.div (.fin (ny - 1))))
    let p := (RF.fin 2).mul (lib.survival df t.abs)
    (t, p)

/-- Model of the time.Time carried by each record, keeping exactly the
projections the analyzer uses: the timestamp (for Before/After and
min/max tracking, as seconds), the hour of day returned by Hour(), and
the weekday returned by Weekday() (0 = Sunday). -/
structure Date where
  stamp : Int
  hour : Fin 24
  wday : Fin 7
deriving DecidableEq

/-- Embedding of the Measurement record (src/main.go:31-35). -/
structure Measurement where
  Date : Date
  Value : ℚ
  Label : String
deriving DecidableEq

/-- Embedding of the TimeSeries record (src/main.go:37-42). -/
structure TimeSeries where
  Label : String
  Measurements : List Measurement
  MinDate : Int
  MaxDate : Int
deriving DecidableEq

/-- Embedding of the AnalysisResult record (src/main.go:44-49). -/
structure AnalysisResult where
  Mean : RF
  Count : Nat
  StdDev : RF
  ConfidenceInterval : RF × RF
deriving DecidableEq

/-- Embedding of the TimeSegmentAnalysis record (src/main.go:51-57). -/
structure TimeSegmentAnalysis where
  Benchmark : AnalysisResult
  Experiment : AnalysisResult
  Difference : RF
  PValue : RF
  Significant : Bool
deriving DecidableEq

/-- Embedding of getUniqueLabels (src/main.go:83-94). The Go version
collects the distinct labels through a map whose iteration order is
unspecified; the distinct labels in first-occurrence order are a faithful
canonical choice, and no claim depends on the order. -/
def getUniqueLabels (data : List Measurement) : List String :=
  (data.map (·.Label)).dedup

/-- Embedding of filterByLabel (src/main.go:151-174): one pass over the
records, appending exact label matches in order while tracking the
running minimum and maximum timestamp. The Go loop seeds the minimum with
time.Now() (passed here as `now`) and the maximum with the zero time
(modelled as 0). -/
def filterByLabel (now : Int) (data : List Measurement) (label : String) :
    TimeSeries :=
  let fold := data.foldl
    (fun acc m =>
      if m.Label = label then
        (acc.1 ++ [m],
          if m.Date.stamp < acc.2.1 then m.Date.stamp else acc.2.1,
          if acc.2.2 < m.Date.stamp then m.Date.stamp else acc.2.2)
      else acc)
    ([], now, 0)
  { Label := label, Measurements := fold.1,
    MinDate := fold.2.1, MaxDate := fold.2.2 }

/-- Embedding of measurementsToValues (src/main.go:243-249). -/
def measurementsToValues (measurements : List Measurement) : List ℚ :=
  measurements.map (·.Value)

/-- Embedding of groupByHour (src/main.go:251-258) read through map
lookup: the bucket of hour `h` is the in-order list of measurements whose
date has that hour, and the Go map has the key exactly when this list is
nonempty. -/
def groupByHour (measurements : List Measurement) (h : Nat) :
    List Measurement :=
  measurements.filter (fun m => m.Date.hour.val == h)

/-- Embedding of groupByDayOfWeek (src/main.go:260-267), read through map
lookup in the same way as groupByHour. -/
def groupByDayOfWeek (measurements : List Measurement) (d : Nat) :
    List Measurement :=
  measurements.filter (fun m => m.Date.wday.val == d)

/-- The degrees-of-freedom parameter confidenceInterval passes to the
Student's t quantile (src/main.go:273): n - 1 with no guard. -/
def ciNu (values : List ℚ) : ℚ := (values.length : ℚ) - 1

/-- Embedding of confidenceInterval (src/main.go:269-278). -/
def confidenceInterval (lib : Libm) (values : List ℚ)
    (confidenceLevel : ℚ) : RF × RF :=
  let mean := gmean values
  let stdErr := (gstddev lib.sqrtQ values).div
    (RF.sqrt lib.sqrtQ (.fin values.length))
  let tValue := RF.fin (lib.quantile (ciNu values) ((1 + confidenceLevel) / 2))
  let margin := tValue.mul stdErr
  (mean.sub margin, mean.add margin)

/-- Embedding of analyzeSegment (src/main.go:209-241). -/
def analyzeSegment (lib : Libm) (benchmark experiment : List Measurement)
    (confidenceLevel : ℚ) : TimeSegmentAnalysis :=
  let benchValues := measurementsToValues benchmark
  let expValues := measurementsToValues experiment
  let benchMean := gmean benchValues
  let expMean := gmean expValues
  let benchStdDev := gstddev lib.sqrtQ benchValues
  let expStdDev := gstddev lib.sqrtQ expValues
  let pValue := (welchTTest lib benchValues expValues).2
  let benchCI := confidenceInterval lib benchValues confidenceLevel
  let expCI := confidenceInterval lib expValues confidenceLevel
  { Benchmark :=
      { Mean := benchMean, Count := benchValues.length,
        StdDev := benchStdDev, ConfidenceInterval := benchCI }
    Experiment :=
      { Mean := expMean, Count := expValues.length,
        StdDev := expStdDev, ConfidenceInterval := expCI }
    Difference := ((expMean.sub benchMean).div benchMean).mul (.fin 100)
    PValue := pValue
    Significant := pValue.ltb (.fin (1 - confidenceLevel)) }

/-- The decimal digit character of n < 10. -/
def digitChar (n : Nat) : Char := Char.ofNat (48 + n)

/-- The segment key fmt.Sprintf("hour_%02d", hour) produces for
0 <= hour < 24: "hour_" followed by two decimal digits. -/
def hourKey (h : Nat) : String :=
  "hour_" ++ String.mk [digitChar (h / 10), digitChar (h % 10)]

/-- The segment key fmt.Sprintf("day_%d", day) produces for
0 <= day < 7: "day_" followed by one decimal digit. -/
def dayKey (d : Nat) : String :=
  "day_" ++ String.mk [digitChar d]

/-- Embedding of analyzeTimeSeries (src/main.go:176-207): the overall
segment, then for each hour 0..23 and day 0..6 present in both series a
segment keyed by its formatted name. The Go map is modelled as the
association list of its insertions, which are at pairwise distinct keys. -/
def analyzeTimeSeries (lib : Libm) (benchmark experiment : TimeSeries)
    (confidenceLevel : ℚ) : List (String × TimeSegmentAnalysis) :=
  ("overall",
    analyzeSegment lib benchmark.Measurements experiment.Measurements
      confidenceLevel) ::
  (((List.range 24).filterMap fun hour =>
      let b := groupByHour benchmark.Measurements hour
      let e := groupByHour experiment.Measurements hour
      if b ≠ [] ∧ e ≠ [] then
        some (hourKey hour, analyzeSegment lib b e confidenceLevel)
      else none) ++
    ((List.range 7).filterMap fun day =>
      let b := groupByDayOfWeek benchmark.Measurements day
      let e := groupByDayOfWeek experiment.Measurements day
      if b ≠ [] ∧ e ≠ [] then
        some (dayKey day, analyzeSegment lib b e confidenceLevel)
      else none))

/-- The segment keys the spec allows: "overall", the 24 hour keys and the
7 day keys. -/
def allowedKeys : List String :=
  "overall" :: ((List.range 24).map hourKey ++ (List.range 7).map dayKey)

/-- Modelled from the spec: the variance convention the spec's words
assign to std_dev — "standard deviation (denominator n)" — stated as a
definition only to be compared against the source's convention; the
source's own convention is `gvariance`. -/
def specVarianceN (l : List ℚ) : RF :=
  if l.length = 0 then .nan else .fin (sqDevSum l / l.length)

/-- A fixed date for scenario measurements; none of the per-segment
statistics depend on it. -/
def d0 : Date := ⟨0, 0, 0⟩

/-- A scenario measurement carrying the value v. -/
def mkM (v : ℚ) : Measurement := ⟨d0, v, "x"⟩

/-- The spec's flagship scenario baseline: four measurements of 10. -/
def baseline10 : List Measurement := [mkM 10, mkM 10, mkM 10, mkM 10]

/-- The spec's flagship scenario experiment: four measurements of 11. -/
def experiment11 : List Measurement := [mkM 11, mkM 11, mkM 11, mkM 11]

/-- Concrete library instance whose survival function is identically
zero, realizing "survival vanishes at +∞" everywhere. -/
def zeroLib : Libm := ⟨fun _ _ => .fin 0, fun _ _ => 0, id⟩

/-- Concrete library instance whose survival function is identically
NaN, realizing "survival propagates NaN" everywhere. -/
def nanLib : Libm := ⟨fun _ _ => .nan, fun _ _ => 0, id⟩

/-- Concrete library instance with identity quantile and square root on
positive arguments; both satisfy the monotonicity and sign properties the
confidence-interval claims assume of the true Student's t quantile and
square root. -/
def idLib : Libm := ⟨fun _ _ => .fin 0, fun _ p => p, id⟩

/-- An empty time series, for the presence-rule counterexample. -/
def emptyBench : TimeSeries := ⟨"b", [], 0, 0⟩

/-- A one-measurement time series, for the presence-rule counterexample
and witnesses. -/
def oneExp : TimeSeries := ⟨"e", [⟨d0, 1, "e"⟩], 0, 0⟩

/-- A two-measurement constant segment, for NaN p-value witnesses. -/
def pair5 : List Measurement := [mkM 5, mkM 5]

/-! ## Theorems

Basic reduction lemmas for the IEEE special-value arithmetic, then the
helper lemmas about the embedded statistics, then one theorem per claim
(with its witness or counterexample where required). -/

@[simp] theorem RF.nan_add (x : RF) : RF.add .nan x = .nan := rfl

@[simp] theorem RF.add_nan (x : RF) : RF.add x .nan = .nan := by
  cases x <;> rfl

@[simp] theorem RF.nan_sub (x : RF) : RF.sub .nan x = .nan := rfl

@[simp] theorem RF.sub_nan (x : RF) : RF.sub x .nan = .nan := by
  cases x <;> rfl

@[simp] theorem RF.nan_mul (x : RF) : RF.mul .nan x = .nan := rfl

@[simp] theorem RF.mul_nan (x : RF) : RF.mul x .nan = .nan := by
  cases x <;> rfl

@[simp] theorem RF.nan_div (x : RF) : RF.div .nan x = .nan := rfl

@[simp] theorem RF.div_nan (x : RF) : RF.div x .nan = .nan := by
  cases x <;> rfl

@[simp] theorem RF.sqrt_nan (f : ℚ → ℚ) : RF.sqrt f .nan = .nan := rfl

@[simp] theorem RF.abs_nan : RF.abs .nan = .nan := rfl

@[simp] theorem RF.nan_ltb (x : RF) : RF.ltb .nan x = false := rfl

@[simp] theorem RF.fin_sub_fin (a b : ℚ) :
    RF.sub (.fin a) (.fin b) = .fin (a - b) := by
  simp [RF.sub, RF.add, RF.neg, sub_eq_add_neg]

@[simp] theorem RF.fin_add_fin (a b : ℚ) :
    RF.add (.fin a) (.fin b) = .fin (a + b) := rfl

@[simp] theorem RF.fin_mul_fin (a b : ℚ) :
    RF.mul (.fin a) (.fin b) = .fin (a * b) := rfl

theorem RF.fin_div_fin_of_ne (a : ℚ) {b : ℚ} (hb : b ≠ 0) :
    RF.div (.fin a) (.fin b) = .fin (a / b) := by
  simp [RF.div, hb]

theorem gmean_replicate {n : ℕ} (hn : n ≠ 0) (c : ℚ) :
    gmean (List.replicate n c) = .fin c := by
  simp [gmean, hn, List.sum_replicate, nsmul_eq_mul]

theorem sqDevSum_replicate (n : ℕ) (c : ℚ) :
    sqDevSum (List.replicate n c) = 0 := by
  rcases Nat.eq_zero_or_pos n with h | h
  · subst h; simp [sqDevSum]
  · have hn : (n : ℚ) ≠ 0 := by positivity
    simp [sqDevSum, List.map_replicate, List.sum_replicate, nsmul_eq_mul,
      mul_div_cancel_left₀ _ hn]

theorem gvariance_replicate {n : ℕ} (hn : 2 ≤ n) (c : ℚ) :
    gvariance (List.replicate n c) = .fin 0 := by
  simp [gvariance, sqDevSum_replicate]
  omega

/-- C1: for baseline values [10,10,10,10] and experiment values
[11,11,11,11] at confidence 0.95, analyzeSegment yields a percentage
difference of exactly 10, a p-value of 0 (below 0.001), and a true
Significant flag. In source arithmetic the zero variances with differing
means drive the t statistic to -∞ and the Welch degrees of freedom to
0/0 = NaN, so the claim is settled under the property the spec assigns
to the library survival function: the upper tail of the t distribution
vanishes at +∞ ("infinitely significant, p -> 0"). -/
theorem c1_constant_shift_significant (lib : Libm)
    (hS : ∀ nu, lib.survival nu (RF.inf true) = RF.fin 0) :
    (analyzeSegment lib baseline10 experiment11 (95/100)).Difference
        = RF.fin 10 ∧
    (analyzeSegment lib baseline10 experiment11 (95/100)).PValue
        = RF.fin 0 ∧
    RF.ltb (analyzeSegment lib baseline10 experiment11 (95/100)).PValue
        (RF.fin (1/1000)) = true ∧
    (analyzeSegment lib baseline10 experiment11 (95/100)).Significant
        = true := by
  norm_num [analyzeSegment, baseline10, experiment11, measurementsToValues,
    mkM, welchTTest, gmean, gvariance, sqDevSum, RF.sub, RF.add, RF.neg,
    RF.div, RF.mul, RF.sq, RF.sqrt, RF.abs, RF.ltb, hS]

/-- Witness for C1 at the concrete library whose survival is identically
zero. -/
theorem c1_constant_shift_significant_witness :
    (analyzeSegment zeroLib baseline10 experiment11 (95/100)).Significant
      = true :=
  (c1_constant_shift_significant zeroLib (fun _ => rfl)).2.2.2

/-- C2 counterexample: on the constant equal samples [5,5] and [5,5] the
source's welchTTest does not return (0, 1): the t statistic is
0/0 = NaN (the claimed zero-variance guard does not exist in the code). -/
theorem c2_constant_equal_not_zero_one :
    (welchTTest nanLib [5, 5] [5, 5]).1 = RF.nan ∧ RF.nan ≠ RF.fin 0 := by
  constructor
  · norm_num [welchTTest, gmean, gvariance, sqDevSum, RF.sub, RF.add,
      RF.neg, RF.div, RF.mul, RF.sq, RF.sqrt, RF.abs, nanLib]
  · decide

/-- C2 as amended: for every two constant samples of the same value, each
of length at least 2, welchTTest returns t = NaN, and (whenever the
library survival propagates NaN, as the t-distribution upper tail does on
an undefined shape) p = NaN as well; the NaN p-value then makes every
significance comparison false, so the NaN, although propagated, cannot
flag the segment significant. -/
theorem c2_constant_equal_nan (lib : Libm)
    (hS : lib.survival RF.nan RF.nan = RF.nan)
    (c : ℚ) (n m : ℕ) (hn : 2 ≤ n) (hm : 2 ≤ m) :
    (welchTTest lib (List.replicate n c) (List.replicate m c)).1 = RF.nan ∧
    (welchTTest lib (List.replicate n c) (List.replicate m c)).2 = RF.nan ∧
    ∀ z, RF.ltb
      (welchTTest lib (List.replicate n c) (List.replicate m c)).2 z
        = false := by
  have hn' : ¬((n : ℚ) < 2 ∨ (m : ℚ) < 2) := by
    push_neg
    constructor <;> [exact_mod_cast hn; exact_mod_cast hm]
  have hnne : ((n : ℚ)) ≠ 0 := by positivity
  have hmne : ((m : ℚ)) ≠ 0 := by positivity
  have h2n : ((n : ℚ) - 1) ≠ 0 := by
    have : (2 : ℚ) ≤ (n : ℚ) := by exact_mod_cast hn
    linarith
  have h2m : ((m : ℚ) - 1) ≠ 0 := by
    have : (2 : ℚ) ≤ (m : ℚ) := by exact_mod_cast hm
    linarith
  have key :
      welchTTest lib (List.replicate n c) (List.replicate m c)
        = (RF.nan, RF.nan) := by
    simp only [welchTTest, List.length_replicate, hn', if_false,
      gmean_replicate (by omega : n ≠ 0), gmean_replicate (by omega : m ≠ 0),
      gvariance_replicate hn, gvariance_replicate hm]
    rw [RF.fin_div_fin_of_ne 0 hnne, RF.fin_div_fin_of_ne 0 hmne]
    norm_num [RF.sub, RF.add, RF.neg, RF.div, RF.mul, RF.sq, RF.sqrt,
      RF.abs, h2n, h2m, hS]
  exact ⟨by rw [key], by rw [key],
    fun z => by rw [key]; exact RF.nan_ltb z⟩

/-- Witness for C2's amended statement at [5,5] against [5,5] with the
NaN-propagating library. -/
theorem c2_constant_equal_nan_witness :
    (welchTTest nanLib (List.replicate 2 (5 : ℚ))
      (List.replicate 2 (5 : ℚ))).2 = RF.nan :=
  (c2_constant_equal_nan nanLib rfl 5 2 2 (by norm_num) (by norm_num)).2.1

/-- C3: whenever either sample has fewer than two observations,
welchTTest returns exactly (0, 1) through its guard clause, and in
particular the segment for baseline [100] against experiment [90,110] at
confidence 0.95 is not significant, since p = 1 is not below 0.05. -/
theorem c3_small_sample_guard (lib : Libm) (x y : List ℚ)
    (h : x.length < 2 ∨ y.length < 2) :
    welchTTest lib x y = (RF.fin 0, RF.fin 1) ∧
    (analyzeSegment lib [mkM 100] [mkM 90, mkM 110] (95/100)).Significant
      = false := by
  constructor
  · have h' : ((x.length : ℚ) < 2 ∨ (y.length : ℚ) < 2) := by
      rcases h with h | h
      · exact Or.inl (by exact_mod_cast h)
      · exact Or.inr (by exact_mod_cast h)
    simp only [welchTTest, h', if_true]
  · norm_num [analyzeSegment, measurementsToValues, mkM, welchTTest, RF.ltb]

/-- Witness for C3 at the concrete scenario samples. -/
theorem c3_small_sample_guard_witness :
    welchTTest zeroLib [(100 : ℚ)] [90, 110] = (RF.fin 0, RF.fin 1) :=
  (c3_small_sample_guard zeroLib [(100 : ℚ)] [90, 110]
    (Or.inl (by norm_num))).1

/-- C10: whenever the p-value computed inside analyzeSegment is NaN, the
Significant flag is false, because the IEEE comparison
p < 1 - confidence is false on NaN; a degenerate segment is never
reported significant. -/
theorem c10_nan_pvalue_not_significant (lib : Libm)
    (benchmark experiment : List Measurement) (conf : ℚ)
    (h : (analyzeSegment lib benchmark experiment conf).PValue = RF.nan) :
    (analyzeSegment lib benchmark experiment conf).Significant = false := by
  have hrep : (analyzeSegment lib benchmark experiment conf).Significant
      = RF.ltb (analyzeSegment lib benchmark experiment conf).PValue
        (RF.fin (1 - conf)) := rfl
  rw [hrep, h, RF.nan_ltb]

/-- Witness for C10 at the constant equal pair [5,5] vs [5,5], whose
p-value is NaN under the NaN-propagating library. -/
theorem c10_nan_pvalue_not_significant_witness :
    (analyzeSegment nanLib pair5 pair5 (95/100)).Significant = false :=
  c10_nan_pvalue_not_significant nanLib pair5 pair5 (95/100)
    (by norm_num [analyzeSegment, pair5, measurementsToValues, mkM,
      welchTTest, gmean, gvariance, sqDevSum, RF.sub, RF.add, RF.neg,
      RF.div, RF.mul, RF.sq, RF.sqrt, RF.abs, nanLib])

/-- C5 counterexample: for the single-observation sample [5] the source
does pass the non-positive degrees of freedom n - 1 = 0 to the Student's
t quantile (there is no small-sample guard in confidenceInterval), and
the returned interval is (NaN, NaN), not an interval collapsing to the
mean. -/
theorem c5_degenerate_ci_counterexample :
    ciNu [(5 : ℚ)] = 0 ∧
    confidenceInterval zeroLib [5] (1 / 2) = (RF.nan, RF.nan) ∧
    (RF.nan, RF.nan) ≠ (RF.fin 5, RF.fin 5) := by
  refine ⟨by norm_num [ciNu], ?_, by decide⟩
  norm_num [confidenceInterval, gmean, gstddev, gvariance, sqDevSum, ciNu,
    RF.sub, RF.add, RF.neg, RF.div, RF.mul, RF.sqrt, zeroLib]

/-- C5 as amended: for every sample with fewer than two values and every
confidence level, confidenceInterval returns the defined degenerate
interval (NaN, NaN) — it does not abort, but the interval does not
collapse to the mean — and the quantile is invoked with the non-positive
degrees of freedom n - 1, whose value however cannot reach the result
because the standard error is already NaN. -/
theorem c5_degenerate_ci_nan (lib : Libm) (values : List ℚ) (conf : ℚ)
    (h : values.length < 2) :
    confidenceInterval lib values conf = (RF.nan, RF.nan) ∧
    ciNu values ≤ 0 := by
  rcases values with _ | ⟨v, _ | ⟨w, rest⟩⟩
  · refine ⟨?_, by norm_num [ciNu]⟩
    norm_num [confidenceInterval, gmean, gstddev, gvariance, sqDevSum, ciNu]
  · refine ⟨?_, by norm_num [ciNu]⟩
    norm_num [confidenceInterval, gmean, gstddev, gvariance, sqDevSum, ciNu]
  · exact absurd h (by simp)

/-- Witness for C5's amended statement at the empty sample. -/
theorem c5_degenerate_ci_nan_witness :
    confidenceInterval idLib [] (3 / 4) = (RF.nan, RF.nan) :=
  (c5_degenerate_ci_nan idLib [] (3 / 4) (by norm_num)).1

/-- C8 counterexample: the sample [0, 2] has mean 1 and squared
deviations summing to 2; the source's variance (gonum's unbiased
convention, denominator n - 1) gives 2, while the spec's stated
denominator-n convention gives 1, so std_dev does not use denominator
n. -/
theorem c8_variance_counterexample :
    gvariance [0, 2] = RF.fin 2 ∧ specVarianceN [0, 2] = RF.fin 1 ∧
    gvariance [0, 2] ≠ specVarianceN [0, 2] := by
  refine ⟨?_, ?_, ?_⟩ <;>
    norm_num [gvariance, specVarianceN, sqDevSum]

/-- C8 as amended: the mean is the standard sample mean (denominator n)
and the variance convention is the unbiased one (denominator n - 1), and
this single convention is applied uniformly — the standard deviation used
by analyzeSegment and confidenceInterval is the square root of the very
variance welchTTest uses, as all of them embed the same pair of gonum
routines. -/
theorem c8_uniform_unbiased_convention (lib : Libm) (l : List ℚ)
    (hn : 2 ≤ l.length) (a b : ℚ) :
    gmean l = RF.fin (l.sum / l.length) ∧
    gvariance l = RF.fin (sqDevSum l / ((l.length : ℚ) - 1)) ∧
    gvariance [a, b] = RF.fin ((b - a) ^ 2 / 2) ∧
    gstddev lib.sqrtQ l = (gvariance l).sqrt lib.sqrtQ ∧
    (welchTTest lib l l).1 =
      ((gmean l).sub (gmean l)).div
        ((((gvariance l).div (.fin l.length)).add
          ((gvariance l).div (.fin l.length))).sqrt lib.sqrtQ) := by
  have h0 : l.length ≠ 0 := by omega
  have h1 : l.length ≠ 1 := by omega
  have hcond : ¬((l.length : ℚ) < 2 ∨ (l.length : ℚ) < 2) := by
    push_neg
    constructor <;> exact_mod_cast hn
  refine ⟨by simp [gmean, h0], by simp [gvariance, h0, h1], ?_, rfl, ?_⟩
  · norm_num [gvariance, sqDevSum]
    ring_nf
  · simp only [welchTTest, hcond, if_false]

/-- Witness for C8's amended statement at the two-element sample
[1, 4]. -/
theorem c8_uniform_unbiased_convention_witness :
    gvariance [(1 : ℚ), 4] = RF.fin ((4 - 1) ^ 2 / 2) :=
  (c8_uniform_unbiased_convention zeroLib [0, 2] (by norm_num) 1 4).2.2.1

theorem sqDevSum_nonneg (l : List ℚ) : 0 ≤ sqDevSum l := by
  apply List.sum_nonneg
  intro x hx
  obtain ⟨y, -, rfl⟩ := List.mem_map.1 hx
  positivity

theorem gstddev_exists_nonneg (lib : Libm)
    (hs : ∀ q, 0 < q → 0 < lib.sqrtQ q) (l : List ℚ)
    (hn : 2 ≤ l.length) :
    ∃ σ : ℚ, 0 ≤ σ ∧ gstddev lib.sqrtQ l = .fin σ := by
  have h0 : l.length ≠ 0 := by omega
  have h1 : l.length ≠ 1 := by omega
  have hv : 0 ≤ sqDevSum l / ((l.length : ℚ) - 1) := by
    apply div_nonneg (sqDevSum_nonneg l)
    have h2 : (2 : ℚ) ≤ (l.length : ℚ) := by exact_mod_cast hn
    linarith
  rw [gstddev, gvariance, if_neg h0, if_neg h1]
  rcases eq_or_lt_of_le hv with hz | hp
  · exact ⟨0, le_refl 0, by simp [RF.sqrt, ← hz]⟩
  · exact ⟨lib.sqrtQ (sqDevSum l / ((l.length : ℚ) - 1)),
      (hs _ hp).le, by simp [RF.sqrt, hv.not_lt, hp.ne']⟩

theorem sqrt_len_pos (lib : Libm)
    (hs : ∀ q, 0 < q → 0 < lib.sqrtQ q) (l : List ℚ)
    (hn : 2 ≤ l.length) :
    ∃ s : ℚ, 0 < s ∧ RF.sqrt lib.sqrtQ (.fin (l.length : ℚ)) = .fin s := by
  have hp : (0 : ℚ) < (l.length : ℚ) := by
    have h2 : (2 : ℚ) ≤ (l.length : ℚ) := by exact_mod_cast hn
    linarith
  exact ⟨lib.sqrtQ (l.length : ℚ), hs _ hp,
    by simp [RF.sqrt, hp.not_lt, hp.ne']⟩

/-- C6: for a sample of at least two values and a confidence level in
(0,1), the interval is (mean - margin, mean + margin) with
margin = quantile(n-1, (1+confidence)/2) times stddev/sqrt(n), and the
returned interval brackets the mean, under the sign properties the spec
assigns to the library: the t quantile is nonnegative at probabilities
of at least one half, and square roots of positives are positive. -/
theorem c6_ci_formula_and_brackets_mean (lib : Libm) (values : List ℚ)
    (conf : ℚ) (hn : 2 ≤ values.length) (hc0 : 0 < conf) (hc1 : conf < 1)
    (hq : ∀ d p, 1 / 2 ≤ p → 0 ≤ lib.quantile d p)
    (hs : ∀ q, 0 < q → 0 < lib.sqrtQ q) :
    confidenceInterval lib values conf =
      ((gmean values).sub
        ((RF.fin (lib.quantile ((values.length : ℚ) - 1)
            ((1 + conf) / 2))).mul
          ((gstddev lib.sqrtQ values).div
            (RF.sqrt lib.sqrtQ (.fin values.length)))),
        (gmean values).add
          ((RF.fin (lib.quantile ((values.length : ℚ) - 1)
              ((1 + conf) / 2))).mul
            ((gstddev lib.sqrtQ values).div
              (RF.sqrt lib.sqrtQ (.fin values.length))))) ∧
    RF.leb (confidenceInterval lib values conf).1 (gmean values) = true ∧
    RF.leb (gmean values) (confidenceInterval lib values conf).2
      = true := by
  obtain ⟨σ, hσ, hσeq⟩ := gstddev_exists_nonneg lib hs values hn
  obtain ⟨s, hspos, hseq⟩ := sqrt_len_pos lib hs values hn
  have h0 : values.length ≠ 0 := by omega
  have hμ : gmean values = .fin (values.sum / values.length) := by
    simp [gmean, h0]
  have hqnn : 0 ≤ lib.quantile ((values.length : ℚ) - 1) ((1 + conf) / 2) :=
    hq _ _ (by linarith)
  have hse : (gstddev lib.sqrtQ values).div
      (RF.sqrt lib.sqrtQ (.fin values.length)) = .fin (σ / s) := by
    rw [hσeq, hseq, RF.fin_div_fin_of_ne _ hspos.ne']
  have hm : 0 ≤ lib.quantile ((values.length : ℚ) - 1) ((1 + conf) / 2)
      * (σ / s) :=
    mul_nonneg hqnn (div_nonneg hσ hspos.le)
  have hpair : confidenceInterval lib values conf
      = (.fin (values.sum / values.length
            - lib.quantile ((values.length : ℚ) - 1) ((1 + conf) / 2)
              * (σ / s)),
          .fin (values.sum / values.length
            + lib.quantile ((values.length : ℚ) - 1) ((1 + conf) / 2)
              * (σ / s))) := by
    show ((gmean values).sub
        ((RF.fin (lib.quantile ((values.length : ℚ) - 1)
            ((1 + conf) / 2))).mul
          ((gstddev lib.sqrtQ values).div
            (RF.sqrt lib.sqrtQ (.fin values.length)))),
      (gmean values).add
        ((RF.fin (lib.quantile ((values.length : ℚ) - 1)
            ((1 + conf) / 2))).mul
          ((gstddev lib.sqrtQ values).div
            (RF.sqrt lib.sqrtQ (.fin values.length))))) = _
    rw [hse, hμ, RF.fin_mul_fin, RF.fin_sub_fin, RF.fin_add_fin]
  refine ⟨rfl, ?_, ?_⟩
  · rw [hpair, hμ]
    simp only [RF.leb, decide_eq_true_eq]
    linarith
  · rw [hpair, hμ]
    simp only [RF.leb, decide_eq_true_eq]
    linarith

/-- Witness for C6 at the sample [0, 2] with confidence 1/2 and the
identity quantile and square root. -/
theorem c6_ci_formula_and_brackets_mean_witness :
    RF.leb (confidenceInterval idLib [0, 2] (1 / 2)).1 (gmean [0, 2])
      = true :=
  (c6_ci_formula_and_brackets_mean idLib [0, 2] (1 / 2) (by norm_num)
    (by norm_num) (by norm_num)
    (fun _ p hp => le_trans (by norm_num) hp) (fun _ h => h)).2.1

/-- C7: for a fixed sample of at least two values, the confidence
interval at the higher of two confidence levels contains the one at the
lower level (in particular ci(0.99) contains ci(0.90)), under the
properties the spec assigns to the library: the t quantile is monotone
in its probability argument and square roots of positives are
positive. -/
theorem c7_ci_monotone_in_confidence (lib : Libm) (values : List ℚ)
    (cl ch : ℚ) (hn : 2 ≤ values.length) (hc0 : 0 < cl) (hc1 : ch < 1)
    (hcc : cl ≤ ch)
    (hq : ∀ d, Monotone (lib.quantile d))
    (hs : ∀ q, 0 < q → 0 < lib.sqrtQ q) :
    RF.leb (confidenceInterval lib values ch).1
      (confidenceInterval lib values cl).1 = true ∧
    RF.leb (confidenceInterval lib values cl).2
      (confidenceInterval lib values ch).2 = true := by
  obtain ⟨σ, hσ, hσeq⟩ := gstddev_exists_nonneg lib hs values hn
  obtain ⟨s, hspos, hseq⟩ := sqrt_len_pos lib hs values hn
  have h0 : values.length ≠ 0 := by omega
  have hμ : gmean values = .fin (values.sum / values.length) := by
    simp [gmean, h0]
  have hse : (gstddev lib.sqrtQ values).div
      (RF.sqrt lib.sqrtQ (.fin values.length)) = .fin (σ / s) := by
    rw [hσeq, hseq, RF.fin_div_fin_of_ne _ hspos.ne']
  have hqq : lib.quantile ((values.length : ℚ) - 1) ((1 + cl) / 2)
      ≤ lib.quantile ((values.length : ℚ) - 1) ((1 + ch) / 2) :=
    hq _ (by linarith)
  have hmm : lib.quantile ((values.length : ℚ) - 1) ((1 + cl) / 2) * (σ / s)
      ≤ lib.quantile ((values.length : ℚ) - 1) ((1 + ch) / 2) * (σ / s) :=
    mul_le_mul_of_nonneg_right hqq (div_nonneg hσ hspos.le)
  have hpair : ∀ c : ℚ, confidenceInterval lib values c
      = (.fin (values.sum / values.length
            - lib.quantile ((values.length : ℚ) - 1) ((1 + c) / 2)
              * (σ / s)),
          .fin (values.sum / values.length
            + lib.quantile ((values.length : ℚ) - 1) ((1 + c) / 2)
              * (σ / s))) := by
    intro c
    show ((gmean values).sub
        ((RF.fin (lib.quantile ((values.length : ℚ) - 1)
            ((1 + c) / 2))).mul
          ((gstddev lib.sqrtQ values).div
            (RF.sqrt lib.sqrtQ (.fin values.length)))),
      (gmean values).add
        ((RF.fin (lib.quantile ((values.length : ℚ) - 1)
            ((1 + c) / 2))).mul
          ((gstddev lib.sqrtQ values).div
            (RF.sqrt lib.sqrtQ (.fin values.length))))) = _
    rw [hse, hμ, RF.fin_mul_fin, RF.fin_sub_fin, RF.fin_add_fin]
  constructor
  · rw [hpair, hpair]
    simp only [RF.leb, decide_eq_true_eq]
    linarith
  · rw [hpair, hpair]
    simp only [RF.leb, decide_eq_true_eq]
    linarith

/-- Witness for C7 at the sample [0, 2] with the spec's pair of levels
0.90 and 0.99 and the identity quantile and square root. -/
theorem c7_ci_monotone_in_confidence_witness :
    RF.leb (confidenceInterval idLib [0, 2] (9 / 10)).2
      (confidenceInterval idLib [0, 2] (99 / 100)).2 = true :=
  (c7_ci_monotone_in_confidence idLib [0, 2] (9 / 10) (99 / 100)
    (by norm_num) (by norm_num) (by norm_num) (by norm_num)
    (fun _ => fun _ _ h => h) (fun _ h => h)).2

theorem filterByLabel_measurements (now : Int) (data : List Measurement)
    (l : String) :
    (filterByLabel now data l).Measurements
      = data.filter (fun m => decide (m.Label = l)) := by
  suffices h : ∀ (d : List Measurement) (ms : List Measurement)
      (mn mx : Int),
      (d.foldl
        (fun acc m =>
          if m.Label = l then
            (acc.1 ++ [m],
              if m.Date.stamp < acc.2.1 then m.Date.stamp else acc.2.1,
              if acc.2.2 < m.Date.stamp then m.Date.stamp else acc.2.2)
          else acc)
        (ms, mn, mx)).1
        = ms ++ d.filter (fun m => decide (m.Label = l)) by
    simpa [filterByLabel] using h data [] now 0
  intro d
  induction d with
  | nil => intro ms mn mx; simp
  | cons m rest ih =>
    intro ms mn mx
    simp only [List.foldl_cons]
    by_cases hm : m.Label = l
    · rw [if_pos hm, ih]
      simp [List.filter_cons, hm]
    · rw [if_neg hm, ih]
      simp [List.filter_cons, hm]

theorem countP_label (data : List Measurement) (l : String) :
    (data.map (·.Label)).count l
      = data.countP (fun m => decide (m.Label = l)) := by
  induction data with
  | nil => simp
  | cons m rest ih =>
    by_cases hm : m.Label = l
    · simp [List.count_cons, List.countP_cons, ih, hm]
    · simp [List.count_cons, List.countP_cons, ih, hm, Ne.symm hm]

/-- C9: filterByLabel selects exactly the records whose label matches,
preserving input order (it equals the order-preserving filter of the
input), and summing the selected-measurement counts over all distinct
labels occurring in the records recovers the total record count. -/
theorem c9_label_partition_roundtrip (now : Int) (data : List Measurement) :
    ((getUniqueLabels data).map
      (fun l => (filterByLabel now data l).Measurements.length)).sum
        = data.length ∧
    ∀ l, (filterByLabel now data l).Measurements
      = data.filter (fun m => decide (m.Label = l)) := by
  refine ⟨?_, fun l => filterByLabel_measurements now data l⟩
  calc ((getUniqueLabels data).map
      (fun l => (filterByLabel now data l).Measurements.length)).sum
      = ((data.map (·.Label)).dedup.map
          (fun l => (data.map (·.Label)).count l)).sum := by
        apply congrArg List.sum
        apply List.map_congr_left
        intro l hl
        rw [filterByLabel_measurements, ← List.countP_eq_length_filter,
          ← countP_label]
    _ = (data.map (·.Label)).length :=
        List.sum_map_count_dedup_eq_length _
    _ = data.length := by simp

theorem hourKey_ne_overall : ∀ h < 24, hourKey h ≠ "overall" := by decide

theorem dayKey_ne_overall : ∀ d < 7, dayKey d ≠ "overall" := by decide

theorem hourKey_ne_dayKey : ∀ h < 24, ∀ d < 7, hourKey h ≠ dayKey d := by
  decide

theorem hourKey_inj :
    ∀ h₁ < 24, ∀ h₂ < 24, hourKey h₁ = hourKey h₂ → h₁ = h₂ := by decide

theorem dayKey_inj :
    ∀ d₁ < 7, ∀ d₂ < 7, dayKey d₁ = dayKey d₂ → d₁ = d₂ := by decide

theorem keys_char (lib : Libm) (benchmark experiment : TimeSeries)
    (conf : ℚ) (k : String)
    (hk : k ∈ (analyzeTimeSeries lib benchmark experiment conf).map
      Prod.fst) :
    k = "overall" ∨
    (∃ h, h ∈ List.range 24 ∧
      (groupByHour benchmark.Measurements h ≠ [] ∧
        groupByHour experiment.Measurements h ≠ []) ∧ k = hourKey h) ∨
    (∃ d, d ∈ List.range 7 ∧
      (groupByDayOfWeek benchmark.Measurements d ≠ [] ∧
        groupByDayOfWeek experiment.Measurements d ≠ []) ∧
      k = dayKey d) := by
  rw [analyzeTimeSeries, List.map_cons] at hk
  rcases List.mem_cons.1 hk with h1 | h2
  · exact Or.inl h1
  · rw [List.map_append] at h2
    rcases List.mem_append.1 h2 with h3 | h3
    · refine Or.inr (Or.inl ?_)
      obtain ⟨⟨k', seg⟩, hmem, rfl⟩ := List.mem_map.1 h3
      obtain ⟨h, hr, heq⟩ := List.mem_filterMap.1 hmem
      simp only [] at heq
      split at heq
      · next hcond =>
          simp only [Option.some.injEq, Prod.mk.injEq] at heq
          exact ⟨h, hr, hcond, heq.1.symm⟩
      · exact absurd heq (by simp)
    · refine Or.inr (Or.inr ?_)
      obtain ⟨⟨k', seg⟩, hmem, rfl⟩ := List.mem_map.1 h3
      obtain ⟨d, hr, heq⟩ := List.mem_filterMap.1 hmem
      simp only [] at heq
      split at heq
      · next hcond =>
          simp only [Option.some.injEq, Prod.mk.injEq] at heq
          exact ⟨d, hr, hcond, heq.1.symm⟩
      · exact absurd heq (by simp)

/-- C4 counterexample: with an empty baseline series and a one-element
experiment series, analyzeTimeSeries still inserts the key "overall",
although the baseline has no measurement in the overall segment — the
presence rule is not checked for the overall key. -/
theorem c4_presence_counterexample :
    "overall" ∈ (analyzeTimeSeries zeroLib emptyBench oneExp
      (1 / 2)).map Prod.fst ∧
    emptyBench.Measurements = [] :=
  ⟨by rw [analyzeTimeSeries, List.map_cons]; exact List.mem_cons_self _ _,
    rfl⟩

/-- C4 as amended: every key of the analyzeTimeSeries result lies in the
allowed set (overall, the 24 hour keys, the 7 day keys); an hour or day
key is present only if both series have a measurement in that segment;
and the key "overall" is always present — unconditionally, so the
original presence rule holds for it only when both input series are
nonempty. -/
theorem c4_keys_allowed_and_presence (lib : Libm)
    (benchmark experiment : TimeSeries) (conf : ℚ) :
    (∀ k ∈ (analyzeTimeSeries lib benchmark experiment conf).map Prod.fst,
      k ∈ allowedKeys) ∧
    "overall" ∈ (analyzeTimeSeries lib benchmark experiment conf).map
      Prod.fst ∧
    (∀ h < 24,
      hourKey h ∈ (analyzeTimeSeries lib benchmark experiment conf).map
        Prod.fst →
      groupByHour benchmark.Measurements h ≠ [] ∧
        groupByHour experiment.Measurements h ≠ []) ∧
    (∀ d < 7,
      dayKey d ∈ (analyzeTimeSeries lib benchmark experiment conf).map
        Prod.fst →
      groupByDayOfWeek benchmark.Measurements d ≠ [] ∧
        groupByDayOfWeek experiment.Measurements d ≠ []) := by
  refine ⟨?_, ?_, ?_, ?_⟩
  · intro k hk
    rcases keys_char lib benchmark experiment conf k hk with
      h1 | ⟨h, hr, -, rfl⟩ | ⟨d, hr, -, rfl⟩
    · rw [h1]; exact List.mem_cons_self _ _
    · exact List.mem_cons_of_mem _
        (List.mem_append_left _ (List.mem_map_of_mem _ hr))
    · exact List.mem_cons_of_mem _
        (List.mem_append_right _ (List.mem_map_of_mem _ hr))
  · rw [analyzeTimeSeries, List.map_cons]
    exact List.mem_cons_self _ _
  · intro h hh hmem
    rcases keys_char lib benchmark experiment conf _ hmem with
      h1 | ⟨h', hr', hcond, heq⟩ | ⟨d', hr', hcond, heq⟩
    · exact absurd h1 (hourKey_ne_overall h hh)
    · rcases hourKey_inj h hh h' (List.mem_range.1 hr') heq with rfl
      exact hcond
    · exact absurd heq
        (hourKey_ne_dayKey h hh d' (List.mem_range.1 hr'))
  · intro d hd hmem
    rcases keys_char lib benchmark experiment conf _ hmem with
      h1 | ⟨h', hr', hcond, heq⟩ | ⟨d', hr', hcond, heq⟩
    · exact absurd h1 (dayKey_ne_overall d hd)
    · exact absurd heq.symm
        (hourKey_ne_dayKey h' (List.mem_range.1 hr') d hd)
    · rcases dayKey_inj d hd d' (List.mem_range.1 hr') heq with rfl
      exact hcond

end ShStat
